import Mathlib

/-!
# Verification of the onyo inventory tracker

Shallow embedding of the onyo repository's data model and operations,
translated from the Python sources:

* `src/onyo/lib/command_utils.py` — `sanitize_args_config`, `fill_unset`
* `src/onyo/commands/new.py` — `create_filename`, `run_onyo_new`
* the inventory transaction engine (`onyo_rm`, `onyo set`) — its
  implementation module is not part of this source snapshot (only its test
  suite `src/onyo/lib/tests/test_commands_rm.py` and
  `src/onyo/commands/tests/test_set.py` is), so those operations are
  modelled from the specification.

Python dictionaries are modelled as association lists with first-match
lookup; inventory paths are modelled as lists of path components relative
to the repository root; the VCS head is modelled as a commit counter
(`get_hexsha` is injective on the history length, so "the head hash is
unchanged" is exactly "the counter is unchanged").
-/

namespace Onyo

/-! ## Python dictionary model

A Python `dict` is modelled as an association list.  Lookup is first
match, mirroring the fact that a real `dict` holds at most one entry per
key.  `pyDictUnion a b` models Python's `a | b` merge: the keys of `a` in
order with values overridden by `b` where `b` has the key, followed by the
entries of `b` whose keys are absent from `a`. -/

def dictLookup {V : Type} (d : List (String × V)) (k : String) : Option V :=
  match d with
  | [] => none
  | (k', v) :: rest => if k' = k then some v else dictLookup rest k

def pyDictUnion {V : Type} (a b : List (String × V)) : List (String × V) :=
  a.map (fun p => match dictLookup b p.1 with
                  | some v => (p.1, v)
                  | none => p)
  ++ b.filter (fun q => (dictLookup a q.1).isNone)

/-! ## `sanitize_args_config` (src/onyo/lib/command_utils.py, lines 32-56)

The Python function iterates over `git_config_args` and raises
`ValueError` on the first argument that is contained in the fixed
`forbidden_flags` list; otherwise it returns the argument list unmodified.
Raising is modelled as `Except.error` carrying the message built by the
source. -/

def forbidden_flags : List String :=
  ["--system", "--global", "--local", "--worktree",
   "--file", "--blob", "--help", "-h"]

def sanitize_args_config (git_config_args : List String) :
    Except String (List String) :=
  match git_config_args.find? (fun a => forbidden_flags.contains a) with
  | some _ =>
      .error ("The following options cannot be used with onyo config:\n"
              ++ String.intercalate "\n" forbidden_flags
              ++ "\nExiting. Nothing was set.")
  | none => .ok git_config_args

/-! ## `fill_unset` (src/onyo/lib/command_utils.py, lines 59-73)

For each asset dictionary the generator yields
`{k: UNSET_VALUE for k in keys} | asset`.  The constant `UNSET_VALUE`
comes from `onyo/lib/consts.py`, which is not part of this snapshot; its
concrete value is irrelevant to the claims, it is only used symbolically.
The dict comprehension `{k: UNSET_VALUE for k in keys}` is modelled as
the association list `keys.map (fun k => (k, UNSET_VALUE))`, which has
the same first-match lookup semantics (duplicate keys in `keys` all map
to the same value). -/

def UNSET_VALUE : String := "<unset>"

def fill_unset (assets : List (List (String × String))) (keys : List String) :
    List (List (String × String)) :=
  assets.map (fun asset =>
    pyDictUnion (keys.map (fun k => (k, UNSET_VALUE))) asset)

/-! ## Asset naming (src/onyo/commands/new.py, lines 36-38)

`create_filename` concatenates the four naming-field values with `'_'`
between the first three and `'.'` before the serial.  Filenames are
modelled as lists of characters to make concatenation reasoning direct. -/

def create_filename (type_str make_str model_str serial_str : List Char) :
    List Char :=
  type_str ++ ('_' :: (make_str ++ ('_' :: (model_str ++ ('.' :: serial_str)))))

/-- Split a character list at the first occurrence of `c`: returns the
part before and the part after that occurrence, or `none` if `c` does not
occur. -/
def splitFirst (c : Char) : List Char → Option (List Char × List Char)
  | [] => none
  | x :: xs =>
      if x = c then some ([], xs)
      else (splitFirst c xs).map (fun r => (x :: r.1, r.2))

/-- Modelled from the spec: the Naming Resolver's `split` (spec §4.3), whose
implementation module is not part of this source snapshot.  It recovers the
naming-field values from a filename "using the configured field order and
separators": the first field up to the first `'_'`, the second field up to
the next `'_'`, and the third field up to the `'.'` that precedes the
serial, which is the remainder — the inverse reading of the
`type_make_model.serial` convention implemented by `create_filename`. -/
def split_name (name : List Char) :
    Option (List Char × List Char × List Char × List Char) :=
  match splitFirst '_' name with
  | none => none
  | some (t, r₁) =>
    match splitFirst '_' r₁ with
    | none => none
    | some (m, r₂) =>
      match splitFirst '.' r₂ with
      | none => none
      | some (mo, s) => some (t, m, mo, s)

/-! ## `run_onyo_new` (src/onyo/commands/new.py, lines 21-33)

The function derives the filename from the four entered naming values,
and if `location/filename` already exists it reports
"`<path> asset already exists.`" and exits before the asset file is
created (`touch`) or staged (`git add`); otherwise it creates the file,
stages it, and returns its path.  The filesystem is modelled as the list
of existing paths plus the list of staged paths; the error exit is the
`some`-message component of the result, with the returned state equal to
the input state (the process exits before any mutation). -/

structure NewFS where
  files : List (List Char)
  staged : List (List Char)
deriving DecidableEq, Repr

def run_onyo_new (fs : NewFS) (location : List Char)
    (type_str make_str model_str serial_str : List Char) :
    NewFS × Except (List Char) (List Char) :=
  let filename := create_filename type_str make_str model_str serial_str
  let path := location ++ ('/' :: filename)
  if path ∈ fs.files then
    (fs, .error (path ++ (" asset already exists.").toList))
  else
    ({ files := path :: fs.files, staged := path :: fs.staged }, .ok path)

/-! ## The inventory transaction engine's `remove` — modelled from the spec

The implementation module (`onyo/lib/inventory.py` / `onyo/lib/commands.py`)
is not part of this source snapshot; only its test suite
(`src/onyo/lib/tests/test_commands_rm.py`) is.  The model below follows
spec §4.4 `remove(paths, mode)` and §7:

* the inventory state is the set of tracked inventory directories and the
  set of tracked asset paths (a path in both sets is an asset directory);
  an anchor exists for a directory exactly when the directory is tracked;
  the VCS head is a commit counter;
* validation of the entire input set happens before any primitive is
  queued: the root, paths outside the tree (containing a `".."`
  component), protected/internal paths (under `.onyo` or `.git`),
  structural anchors, and paths that are neither a tracked asset nor a
  tracked directory are illegal; a mode not matching the target's nature
  is a usage error (`ValueError`);
* execution removes, per mode: `asset` — exactly the asset aspect of each
  given path; `dir` — the directory aspect of each given path and its
  whole subtree, preserving the path's own asset record; `all` — the
  full subtree of each given path, both aspects; duplicate or overlapping
  input paths collapse because removal is computed as a filter over the
  whole input set;
* a successful call lands in exactly one new commit; a failed call
  returns the state unchanged. -/

/-- The reserved anchor filename constant (`OnyoRepo.ANCHOR_FILE_NAME`);
the facade module holding it is not part of this snapshot.  Its concrete
value is irrelevant: it is only compared against path components. -/
def ANCHOR_FILE_NAME : String := ".anchor"

abbrev InvPath := List String

structure InvState where
  dirs : List InvPath
  assets : List InvPath
  commits : Nat
deriving DecidableEq, Repr

inductive RmMode where
  | asset
  | dir
  | all
deriving DecidableEq, Repr

inductive RmError where
  /-- `InvalidInventoryOperationError` -/
  | invalidInventoryOperation
  /-- `InventoryOperationError` (path escapes the tree) -/
  | inventoryOperation
  /-- `ValueError` (usage error: mode does not match the target) -/
  | usage
deriving DecidableEq, Repr

/-- Modelled from the spec: per-path validation of `remove` (spec §4.4),
run on the whole input set before anything is queued. -/
def validate_rm (s : InvState) (mode : RmMode) (p : InvPath) : Option RmError :=
  if p = [] then some .invalidInventoryOperation
  else if ".." ∈ p then some .inventoryOperation
  else if p.head? = some ".onyo" ∨ p.head? = some ".git" then
    some .invalidInventoryOperation
  else if p.getLast? = some ANCHOR_FILE_NAME then
    some .invalidInventoryOperation
  else if p ∉ s.assets ∧ p ∉ s.dirs then some .invalidInventoryOperation
  else
    match mode with
    | .all => none
    | .asset => if p ∈ s.assets then none else some .usage
    | .dir => if p ∈ s.dirs then none else some .usage

/-- Modelled from the spec: the cascade-resolved execution of a validated
`remove` batch (spec §4.4), followed by the single commit. -/
def rmApply (s : InvState) (paths : List InvPath) (mode : RmMode) : InvState :=
  match mode with
  | .asset =>
      { s with
        assets := s.assets.filter (fun a => !(paths.contains a)),
        commits := s.commits + 1 }
  | .dir =>
      { dirs := s.dirs.filter (fun d => !(paths.any (fun p => p.isPrefixOf d))),
        assets := s.assets.filter
          (fun a => !(paths.any (fun p => p.isPrefixOf a && a != p))),
        commits := s.commits + 1 }
  | .all =>
      { dirs := s.dirs.filter (fun d => !(paths.any (fun p => p.isPrefixOf d))),
        assets := s.assets.filter (fun a => !(paths.any (fun p => p.isPrefixOf a))),
        commits := s.commits + 1 }

/-- Modelled from the spec: `onyo_rm` / `Inventory.remove` (spec §4.4).
All paths are validated first; if any is illegal the error is raised and
the state is returned unchanged (all-or-nothing), otherwise the cascade
is applied and exactly one commit is created. -/
def onyo_rm (s : InvState) (paths : List InvPath) (mode : RmMode) :
    InvState × Option RmError :=
  match paths.findSome? (validate_rm s mode) with
  | some e => (s, some e)
  | none => (rmApply s paths mode, none)

/-! ## The `set`/modify operation — modelled from the spec

The implementation module is not part of this source snapshot; only its
test suite (`src/onyo/commands/tests/test_set.py`) is.  Per spec §4.4
`modify`, key/value upserts are applied to the selected assets; assets
whose content would not change are not updated, and if no asset changes
the call reports "No assets updated." with zero new commits and success
(exit status 0). -/

structure SetState where
  assets : List (InvPath × List (String × String))
  commits : Nat
deriving DecidableEq, Repr

/-- Modelled from the spec: `onyo set` (spec §4.4 `modify`, content-only
updates).  Returns the new state, the reported message, and the exit
status. -/
def onyo_set (s : SetState) (paths : List InvPath)
    (updates : List (String × String)) : SetState × String × Nat :=
  if ((s.assets.filter (fun a => paths.contains a.1)).filter
      (fun a => pyDictUnion a.2 updates != a.2)).isEmpty then
    (s, "No assets updated.", 0)
  else
    ({ assets := s.assets.map (fun a =>
         if a.1 ∈ paths then (a.1, pyDictUnion a.2 updates) else a),
       commits := s.commits + 1 },
     "The following assets will be changed:", 0)

/-! ## Helper lemmas -/

theorem dictLookup_append {V : Type} (l₁ l₂ : List (String × V)) (k : String) :
    dictLookup (l₁ ++ l₂) k = (dictLookup l₁ k).orElse (fun _ => dictLookup l₂ k) := by
  induction l₁ with
  | nil => simp [dictLookup, Option.orElse]
  | cons hd tl ih =>
      obtain ⟨k', v⟩ := hd
      by_cases h : k' = k <;> simp [dictLookup, h, ih, Option.orElse]

theorem dictLookup_map_override {V : Type} (a b : List (String × V)) (k : String) :
    dictLookup (a.map (fun p => match dictLookup b p.1 with
                                | some v => (p.1, v)
                                | none => p)) k
      = (dictLookup a k).map (fun v => (dictLookup b k).getD v) := by
  induction a with
  | nil => simp [dictLookup]
  | cons hd tl ih =>
      obtain ⟨k', v⟩ := hd
      by_cases h : k' = k
      · subst h
        cases hb : dictLookup b k' <;> simp [dictLookup, hb]
      · cases hb : dictLookup b k' <;> simp [dictLookup, h, hb, ih]

theorem dictLookup_filter_notin {V : Type} (a b : List (String × V)) (k : String) :
    dictLookup (b.filter (fun q => (dictLookup a q.1).isNone)) k
      = if (dictLookup a k).isNone then dictLookup b k else none := by
  induction b with
  | nil => simp [dictLookup]
  | cons hd tl ih =>
      obtain ⟨k', v⟩ := hd
      by_cases h : k' = k
      · subst h
        cases ha : dictLookup a k' <;> simp [dictLookup, ha, ih]
      · cases ha : dictLookup a k' <;> simp [dictLookup, h, ha, ih]

theorem dictLookup_pyDictUnion {V : Type} (a b : List (String × V)) (k : String) :
    dictLookup (pyDictUnion a b) k
      = (dictLookup b k).orElse (fun _ => dictLookup a k) := by
  unfold pyDictUnion
  rw [dictLookup_append, dictLookup_map_override, dictLookup_filter_notin]
  cases ha : dictLookup a k <;> cases hb : dictLookup b k <;>
    simp [Option.orElse]

theorem dictLookup_unset_template (keys : List String) (k : String) :
    dictLookup (keys.map (fun k => (k, UNSET_VALUE))) k
      = if k ∈ keys then some UNSET_VALUE else none := by
  induction keys with
  | nil => simp [dictLookup]
  | cons hd tl ih =>
      by_cases h : hd = k
      · subst h
        simp [dictLookup]
      · have h' : ¬ k = hd := fun e => h e.symm
        simp [dictLookup, h, h', ih]

theorem dictLookup_mem {V : Type} {d : List (String × V)} {k : String} {v : V}
    (h : dictLookup d k = some v) : (k, v) ∈ d := by
  induction d with
  | nil => simp [dictLookup] at h
  | cons hd tl ih =>
      obtain ⟨k', v'⟩ := hd
      by_cases hk : k' = k
      · subst hk
        simp [dictLookup] at h
        simp [h]
      · simp [dictLookup, hk] at h
        exact List.mem_cons_of_mem _ (ih h)

theorem dictLookup_of_mem_nodup {V : Type} {d : List (String × V)} {k : String}
    {v : V} (hmem : (k, v) ∈ d) (hnd : (d.map Prod.fst).Nodup) :
    dictLookup d k = some v := by
  induction d with
  | nil => simp at hmem
  | cons hd tl ih =>
      obtain ⟨k', v'⟩ := hd
      simp only [List.map_cons, List.nodup_cons] at hnd
      rcases List.mem_cons.mp hmem with heq | htl
      · obtain ⟨rfl, rfl⟩ := Prod.mk.injEq .. ▸ heq
        simp [dictLookup]
      · have hk : k' ≠ k := by
          intro e
          subst e
          exact hnd.1 (List.mem_map.mpr ⟨(k', v), htl, rfl⟩)
        simp [dictLookup, hk, ih htl hnd.2]

theorem pyDictUnion_self {V : Type} {d u : List (String × V)}
    (hnd : (d.map Prod.fst).Nodup)
    (h : ∀ k v, (k, v) ∈ u → dictLookup d k = some v) :
    pyDictUnion d u = d := by
  unfold pyDictUnion
  have hfil : u.filter (fun q => (dictLookup d q.1).isNone) = [] := by
    rw [List.filter_eq_nil_iff]
    intro q hq
    have := h q.1 q.2 hq
    simp [this]
  have hmap : d.map (fun p => match dictLookup u p.1 with
                              | some v => (p.1, v)
                              | none => p) = d := by
    have : ∀ p ∈ d, (match dictLookup u p.1 with
                     | some v => (p.1, v)
                     | none => p) = id p := by
      intro p hp
      cases hu : dictLookup u p.1 with
      | none => rfl
      | some v =>
          have hv : dictLookup d p.1 = some v := h p.1 v (dictLookup_mem hu)
          have hv' : dictLookup d p.1 = some p.2 := dictLookup_of_mem_nodup hp hnd
          rw [hv'] at hv
          simp only [Option.some.injEq] at hv
          simp [id, ← hv]
    rw [List.map_congr_left this, List.map_id]
  rw [hfil, hmap, List.append_nil]

theorem splitFirst_append {c : Char} {t : List Char} (rest : List Char)
    (h : c ∉ t) : splitFirst c (t ++ c :: rest) = some (t, rest) := by
  induction t with
  | nil => simp [splitFirst]
  | cons hd tl ih =>
      simp only [List.mem_cons, not_or] at h
      have hne : hd ≠ c := fun e => h.1 e.symm
      simp [splitFirst, hne, ih h.2]

theorem isPrefixOf_refl (l : InvPath) : l.isPrefixOf l = true :=
  List.isPrefixOf_iff_prefix.mpr (List.prefix_refl l)

theorem isPrefixOf_trans {l₁ l₂ l₃ : InvPath} (h₁ : l₁.isPrefixOf l₂ = true)
    (h₂ : l₂.isPrefixOf l₃ = true) : l₁.isPrefixOf l₃ = true :=
  List.isPrefixOf_iff_prefix.mpr
    ((List.isPrefixOf_iff_prefix.mp h₁).trans (List.isPrefixOf_iff_prefix.mp h₂))

theorem isPrefixOf_dropLast_false {l : InvPath} (h : l ≠ []) :
    l.isPrefixOf l.dropLast = false := by
  by_contra hc
  have hb : l.isPrefixOf l.dropLast = true := by
    cases hx : l.isPrefixOf l.dropLast
    · exact absurd hx hc
    · rfl
  have hle := (List.isPrefixOf_iff_prefix.mp hb).length_le
  rw [List.length_dropLast] at hle
  have hpos : 0 < l.length := List.length_pos.mpr h
  omega

theorem validate_rm_all_none_iff (s : InvState) (p : InvPath) :
    validate_rm s .all p = none ↔
      p ≠ [] ∧ ".." ∉ p ∧
      ¬(p.head? = some ".onyo" ∨ p.head? = some ".git") ∧
      p.getLast? ≠ some ANCHOR_FILE_NAME ∧
      (p ∈ s.assets ∨ p ∈ s.dirs) := by
  unfold validate_rm
  split_ifs with h1 h2 h3 h4 h5 <;> simp_all

theorem validate_rm_asset_eq (s : InvState) (p : InvPath)
    (hall : validate_rm s .all p = none) :
    validate_rm s .asset p = if p ∈ s.assets then none else some .usage := by
  rw [validate_rm_all_none_iff] at hall
  obtain ⟨h1, h2, h3, h4, h5⟩ := hall
  unfold validate_rm
  split_ifs with g1 g2 g3 g4 g5 <;> first | rfl | tauto

theorem validate_rm_dir_eq (s : InvState) (p : InvPath)
    (hall : validate_rm s .all p = none) :
    validate_rm s .dir p = if p ∈ s.dirs then none else some .usage := by
  rw [validate_rm_all_none_iff] at hall
  obtain ⟨h1, h2, h3, h4, h5⟩ := hall
  unfold validate_rm
  split_ifs with g1 g2 g3 g4 g5 <;> first | rfl | tauto

/-! ## Claim theorems -/

/-- C9 (amended): `sanitize_args_config` raises `ValueError` if and only if
some element of the input argument list is exactly one of the *eight*
forbidden flags (`--system`, `--global`, `--local`, `--worktree`,
`--file`, `--blob`, `--help`, `-h`); otherwise it returns the input list
unchanged.  The function is pure in this embedding — it touches no state,
mirroring the source, which only reads its argument.  (The claim counted
"nine" flags; the source list `forbidden_flags` has exactly eight
entries.) -/
theorem sanitize_args_config_spec (args : List String) :
    ((∃ a ∈ args, a ∈ forbidden_flags) ↔
      ∃ msg, sanitize_args_config args = .error msg) ∧
    ((∀ a ∈ args, a ∉ forbidden_flags) → sanitize_args_config args = .ok args) ∧
    forbidden_flags.length = 8 := by
  refine ⟨?_, ?_, rfl⟩
  · constructor
    · rintro ⟨a, hmem, hforb⟩
      cases hf : args.find? (fun a => forbidden_flags.contains a) with
      | none =>
          have := List.find?_eq_none.mp hf a hmem
          simp [hforb] at this
      | some x => exact ⟨_, by unfold sanitize_args_config; rw [hf]⟩
    · rintro ⟨msg, hmsg⟩
      unfold sanitize_args_config at hmsg
      cases hf : args.find? (fun a => forbidden_flags.contains a) with
      | none => rw [hf] at hmsg; simp at hmsg
      | some x =>
          refine ⟨x, List.mem_of_find?_eq_some hf, ?_⟩
          have := List.find?_some hf
          simpa using this
  · intro h
    have hf : args.find? (fun a => forbidden_flags.contains a) = none := by
      rw [List.find?_eq_none]
      intro x hx
      simpa using h x hx
    unfold sanitize_args_config
    rw [hf]

/-- C9 counterexample: the claim speaks of "the nine forbidden flags", but
the source's `forbidden_flags` list has eight entries, not nine. -/
theorem sanitize_args_config_not_nine : ¬ (forbidden_flags.length = 9) := by
  decide

/-- C9 witness: instantiation of `sanitize_args_config_spec` at a concrete
accepted argument list. -/
theorem sanitize_args_config_spec_witness :
    (∀ a ∈ ["core.editor", "vim"], a ∉ forbidden_flags) ∧
    sanitize_args_config ["core.editor", "vim"] = .ok ["core.editor", "vim"] :=
  ⟨by decide, (sanitize_args_config_spec ["core.editor", "vim"]).2.1 (by decide)⟩

/-- C10: `fill_unset` yields exactly one output dictionary per input asset,
in order; in the i-th output every key of `keys` absent from the i-th
asset is mapped to `UNSET_VALUE`, and every key present in the i-th asset
keeps its value (asset values take precedence over the fill). -/
theorem fill_unset_spec (assets : List (List (String × String)))
    (keys : List String) :
    (fill_unset assets keys).length = assets.length ∧
    ∀ i (hi : i < assets.length) (ho : i < (fill_unset assets keys).length),
      (∀ k ∈ keys, dictLookup (assets.get ⟨i, hi⟩) k = none →
        dictLookup ((fill_unset assets keys).get ⟨i, ho⟩) k = some UNSET_VALUE) ∧
      (∀ k v, dictLookup (assets.get ⟨i, hi⟩) k = some v →
        dictLookup ((fill_unset assets keys).get ⟨i, ho⟩) k = some v) := by
  constructor
  · simp [fill_unset]
  · intro i hi ho
    have hgo : (fill_unset assets keys).get ⟨i, ho⟩
        = pyDictUnion (keys.map (fun k => (k, UNSET_VALUE))) (assets.get ⟨i, hi⟩) := by
      simp [fill_unset, List.get_eq_getElem, List.getElem_map]
    constructor
    · intro k hk habsent
      rw [hgo, dictLookup_pyDictUnion, habsent, dictLookup_unset_template]
      simp [hk, Option.orElse]
    · intro k v hpresent
      rw [hgo, dictLookup_pyDictUnion, hpresent]
      simp [Option.orElse]

/-- C10 witness: instantiation of `fill_unset_spec` on a concrete asset
list and key list. -/
theorem fill_unset_spec_witness :
    (fill_unset [[("serial", "1")]] ["type", "serial"]).length = 1 ∧
    (0 < ([[("serial", "1")]] : List (List (String × String))).length) ∧
    ∀ (hi : 0 < ([[("serial", "1")]] : List (List (String × String))).length)
      (ho : 0 < (fill_unset [[("serial", "1")]] ["type", "serial"]).length),
      (∀ k ∈ ["type", "serial"],
        dictLookup ([[("serial", "1")]].get ⟨0, hi⟩) k = none →
        dictLookup ((fill_unset [[("serial", "1")]] ["type", "serial"]).get ⟨0, ho⟩) k
          = some UNSET_VALUE) ∧
      (∀ k v, dictLookup ([[("serial", "1")]].get ⟨0, hi⟩) k = some v →
        dictLookup ((fill_unset [[("serial", "1")]] ["type", "serial"]).get ⟨0, ho⟩) k
          = some v) :=
  ⟨(fill_unset_spec [[("serial", "1")]] ["type", "serial"]).1,
   by decide,
   fun hi ho => (fill_unset_spec [[("serial", "1")]] ["type", "serial"]).2 0 hi ho⟩

/-- C5 counterexample: the round-trip fails for naming values containing
the separator character.  With category `"a_b"`, maker `"c"`, model `"d"`,
serial `"s"` the derived filename is `"a_b_c_d.s"`, which splits back per
the convention as `("a", "b", "c_d", "s")`, not `("a_b", "c", "d", "s")`
— indeed `create_filename` is not injective on such values
(`create_filename "a_b" "c" "d" "s" = create_filename "a" "b" "c_d" "s"`),
so no split function can recover them. -/
theorem naming_round_trip_cex :
    split_name (create_filename ['a', '_', 'b'] ['c'] ['d'] ['s'])
        ≠ some (['a', '_', 'b'], ['c'], ['d'], ['s']) ∧
    create_filename ['a', '_', 'b'] ['c'] ['d'] ['s']
        = create_filename ['a'] ['b'] ['c', '_', 'd'] ['s'] := by
  constructor
  · decide
  · decide

/-- C5 (amended): for naming-field values (X, Y, Z, S) in which X and Y
contain no `'_'` and Z contains no `'.'`, deriving the filename with
`create_filename` (`'_'` between the first three fields, `'.'` before the
serial) and then splitting the result back per the convention recovers
exactly (X, Y, Z, S). -/
theorem naming_round_trip (t m mo s : List Char)
    (h1 : '_' ∉ t) (h2 : '_' ∉ m) (h3 : '.' ∉ mo) :
    split_name (create_filename t m mo s) = some (t, m, mo, s) := by
  have e1 := splitFirst_append (m ++ ('_' :: (mo ++ ('.' :: s)))) h1
  have e2 := splitFirst_append (mo ++ ('.' :: s)) h2
  have e3 := splitFirst_append s h3
  simp [split_name, create_filename, e1, e2, e3]

/-- C5 witness: instantiation of `naming_round_trip` at concrete values
("lap", "dell", "xps", "1.2" — a serial may itself contain `'.'`). -/
theorem naming_round_trip_witness :
    ('_' ∉ ['l', 'a', 'p']) ∧ ('_' ∉ ['d', 'e', 'l', 'l']) ∧
    ('.' ∉ ['x', 'p', 's']) ∧
    split_name (create_filename ['l', 'a', 'p'] ['d', 'e', 'l', 'l']
        ['x', 'p', 's'] ['1', '.', '2'])
      = some (['l', 'a', 'p'], ['d', 'e', 'l', 'l'], ['x', 'p', 's'], ['1', '.', '2']) :=
  ⟨by decide, by decide, by decide,
   naming_round_trip ['l', 'a', 'p'] ['d', 'e', 'l', 'l'] ['x', 'p', 's']
     ['1', '.', '2'] (by decide) (by decide) (by decide)⟩

/-- C8: when the derived destination `location/filename` already exists,
`run_onyo_new` reports the already-exists error and performs no mutation —
the filesystem state returned is the input state, nothing is created or
staged; when the destination does not exist, the asset is created and
staged and appears exactly once in the resulting file list, so no
duplicate asset is ever produced. -/
theorem run_onyo_new_spec (fs : NewFS) (location t m mo ser : List Char) :
    (location ++ ('/' :: create_filename t m mo ser) ∈ fs.files →
      run_onyo_new fs location t m mo ser
        = (fs, .error ((location ++ ('/' :: create_filename t m mo ser))
            ++ (" asset already exists.").toList))) ∧
    (location ++ ('/' :: create_filename t m mo ser) ∉ fs.files →
      run_onyo_new fs location t m mo ser
        = ({ files := (location ++ ('/' :: create_filename t m mo ser)) :: fs.files,
             staged := (location ++ ('/' :: create_filename t m mo ser)) :: fs.staged },
           .ok (location ++ ('/' :: create_filename t m mo ser))) ∧
      (run_onyo_new fs location t m mo ser).1.files.count
          (location ++ ('/' :: create_filename t m mo ser)) = 1) := by
  constructor
  · intro h
    simp [run_onyo_new, h]
  · intro h
    refine ⟨by simp [run_onyo_new, h], ?_⟩
    simp [run_onyo_new, h, List.count_cons_self, List.count_eq_zero.mpr h]

/-- C8 witness: instantiation of `run_onyo_new_spec` in both branches —
first creating the asset, then retrying the identical request against the
resulting state, which reports the already-exists error and leaves the
state unchanged. -/
theorem run_onyo_new_spec_witness :
    (['l'] ++ ('/' :: create_filename ['t'] ['m'] ['o'] ['s'])
        ∉ (⟨[['p']], []⟩ : NewFS).files) ∧
    (run_onyo_new ⟨[['p']], []⟩ ['l'] ['t'] ['m'] ['o'] ['s']
        = ({ files := (['l'] ++ ('/' :: create_filename ['t'] ['m'] ['o'] ['s'])) :: [['p']],
             staged := [['l'] ++ ('/' :: create_filename ['t'] ['m'] ['o'] ['s'])] },
           .ok (['l'] ++ ('/' :: create_filename ['t'] ['m'] ['o'] ['s'])))
      ∧ (run_onyo_new ⟨[['p']], []⟩ ['l'] ['t'] ['m'] ['o'] ['s']).1.files.count
          (['l'] ++ ('/' :: create_filename ['t'] ['m'] ['o'] ['s'])) = 1) ∧
    (['l'] ++ ('/' :: create_filename ['t'] ['m'] ['o'] ['s'])
        ∈ (run_onyo_new ⟨[['p']], []⟩ ['l'] ['t'] ['m'] ['o'] ['s']).1.files) ∧
    (run_onyo_new (run_onyo_new ⟨[['p']], []⟩ ['l'] ['t'] ['m'] ['o'] ['s']).1
        ['l'] ['t'] ['m'] ['o'] ['s']
      = ((run_onyo_new ⟨[['p']], []⟩ ['l'] ['t'] ['m'] ['o'] ['s']).1,
         .error ((['l'] ++ ('/' :: create_filename ['t'] ['m'] ['o'] ['s']))
           ++ (" asset already exists.").toList))) :=
  ⟨by decide,
   (run_onyo_new_spec ⟨[['p']], []⟩ ['l'] ['t'] ['m'] ['o'] ['s']).2 (by decide),
   by decide,
   (run_onyo_new_spec (run_onyo_new ⟨[['p']], []⟩ ['l'] ['t'] ['m'] ['o'] ['s']).1
       ['l'] ['t'] ['m'] ['o'] ['s']).1 (by decide)⟩

/-- C1: when at least one path of a `remove` call is illegal (non-existent,
protected, the root, outside the tree, an anchor, or a mode mismatch — any
path whose validation yields an error), the call raises an error and no
filesystem mutation occurs: the resulting state is the input state, so in
particular every tracked asset and directory still exists and the VCS
head (the commit counter) is unchanged. -/
theorem onyo_rm_all_or_nothing (s : InvState) (paths : List InvPath)
    (mode : RmMode) (h : ∃ p ∈ paths, validate_rm s mode p ≠ none) :
    (onyo_rm s paths mode).2.isSome = true ∧
    (onyo_rm s paths mode).1 = s ∧
    (∀ q ∈ s.assets, q ∈ (onyo_rm s paths mode).1.assets) ∧
    (∀ q ∈ s.dirs, q ∈ (onyo_rm s paths mode).1.dirs) ∧
    (onyo_rm s paths mode).1.commits = s.commits := by
  obtain ⟨p, hp, hv⟩ := h
  cases hfs : paths.findSome? (validate_rm s mode) with
  | none => exact absurd (List.findSome?_eq_none_iff.mp hfs p hp) hv
  | some e =>
      have hrm : onyo_rm s paths mode = (s, some e) := by
        unfold onyo_rm
        rw [hfs]
      rw [hrm]
      simp

/-- C1 witness: instantiation of `onyo_rm_all_or_nothing` at a concrete
state and path list containing a valid asset path and a non-existent
path. -/
theorem onyo_rm_all_or_nothing_witness :
    (∃ p ∈ [["a"], ["missing"]],
      validate_rm ⟨[["d"]], [["a"]], 7⟩ .all p ≠ none) ∧
    ((onyo_rm ⟨[["d"]], [["a"]], 7⟩ [["a"], ["missing"]] .all).2.isSome = true ∧
     (onyo_rm ⟨[["d"]], [["a"]], 7⟩ [["a"], ["missing"]] .all).1 = ⟨[["d"]], [["a"]], 7⟩ ∧
     (∀ q ∈ (⟨[["d"]], [["a"]], 7⟩ : InvState).assets,
        q ∈ (onyo_rm ⟨[["d"]], [["a"]], 7⟩ [["a"], ["missing"]] .all).1.assets) ∧
     (∀ q ∈ (⟨[["d"]], [["a"]], 7⟩ : InvState).dirs,
        q ∈ (onyo_rm ⟨[["d"]], [["a"]], 7⟩ [["a"], ["missing"]] .all).1.dirs) ∧
     (onyo_rm ⟨[["d"]], [["a"]], 7⟩ [["a"], ["missing"]] .all).1.commits
        = (⟨[["d"]], [["a"]], 7⟩ : InvState).commits) :=
  ⟨⟨["missing"], by decide, by decide⟩,
   onyo_rm_all_or_nothing ⟨[["d"]], [["a"]], 7⟩ [["a"], ["missing"]] .all
     ⟨["missing"], by decide, by decide⟩⟩

/-- C2: for a valid tracked path p, `remove([p, p])` succeeds and produces
exactly the same resulting state (tree and commit count — exactly one new
commit) as `remove([p])`; likewise, for a valid directory d and a valid
descendant c of d given in the same call, `remove([d, c])` collapses to
the single subtree delete `remove([d])` in one commit. -/
theorem onyo_rm_idempotent (s : InvState) (p d c : InvPath)
    (hp : validate_rm s .all p = none)
    (hd : validate_rm s .all d = none)
    (hc : validate_rm s .all c = none)
    (hdc : d.isPrefixOf c = true) :
    onyo_rm s [p, p] .all = onyo_rm s [p] .all ∧
    (onyo_rm s [p] .all).2 = none ∧
    (onyo_rm s [p] .all).1.commits = s.commits + 1 ∧
    onyo_rm s [d, c] .all = onyo_rm s [d] .all ∧
    (onyo_rm s [d] .all).2 = none ∧
    (onyo_rm s [d] .all).1.commits = s.commits + 1 := by
  have g1 : (fun (a : InvPath) => !([p, p].any (fun q => q.isPrefixOf a)))
      = (fun a => !([p].any (fun q => q.isPrefixOf a))) := by
    funext x
    simp [List.any_cons]
  have g2 : (fun (a : InvPath) => !([d, c].any (fun q => q.isPrefixOf a)))
      = (fun a => !([d].any (fun q => q.isPrefixOf a))) := by
    funext x
    simp only [List.any_cons, List.any_nil, Bool.or_false]
    cases hcx : c.isPrefixOf x
    · simp
    · simp [isPrefixOf_trans hdc hcx]
  have hf1 : [p, p].findSome? (validate_rm s .all) = none := by
    simp [List.findSome?_cons, hp]
  have hf2 : [p].findSome? (validate_rm s .all) = none := by
    simp [List.findSome?_cons, hp]
  have hf3 : [d, c].findSome? (validate_rm s .all) = none := by
    simp [List.findSome?_cons, hd, hc]
  have hf4 : [d].findSome? (validate_rm s .all) = none := by
    simp [List.findSome?_cons, hd]
  have ha1 : rmApply s [p, p] .all = rmApply s [p] .all := by
    simp only [rmApply, g1]
  have ha2 : rmApply s [d, c] .all = rmApply s [d] .all := by
    simp only [rmApply, g2]
  have hrm1 : onyo_rm s [p, p] .all = (rmApply s [p, p] .all, none) := by
    unfold onyo_rm
    rw [hf1]
  have hrm2 : onyo_rm s [p] .all = (rmApply s [p] .all, none) := by
    unfold onyo_rm
    rw [hf2]
  have hrm3 : onyo_rm s [d, c] .all = (rmApply s [d, c] .all, none) := by
    unfold onyo_rm
    rw [hf3]
  have hrm4 : onyo_rm s [d] .all = (rmApply s [d] .all, none) := by
    unfold onyo_rm
    rw [hf4]
  refine ⟨by rw [hrm1, hrm2, ha1], by rw [hrm2], ?_, by rw [hrm3, hrm4, ha2],
    by rw [hrm4], ?_⟩
  · rw [hrm2]
    simp [rmApply]
  · rw [hrm4]
    simp [rmApply]

/-- C2 witness: instantiation of `onyo_rm_idempotent` at a concrete state
with a duplicated asset path and an overlapping directory/descendant
pair. -/
theorem onyo_rm_idempotent_witness :
    (validate_rm ⟨[["x"], ["x", "y"]], [["a"]], 3⟩ .all ["a"] = none) ∧
    (validate_rm ⟨[["x"], ["x", "y"]], [["a"]], 3⟩ .all ["x"] = none) ∧
    (validate_rm ⟨[["x"], ["x", "y"]], [["a"]], 3⟩ .all ["x", "y"] = none) ∧
    (["x"].isPrefixOf ["x", "y"] = true) ∧
    (onyo_rm ⟨[["x"], ["x", "y"]], [["a"]], 3⟩ [["a"], ["a"]] .all
        = onyo_rm ⟨[["x"], ["x", "y"]], [["a"]], 3⟩ [["a"]] .all ∧
     (onyo_rm ⟨[["x"], ["x", "y"]], [["a"]], 3⟩ [["a"]] .all).2 = none ∧
     (onyo_rm ⟨[["x"], ["x", "y"]], [["a"]], 3⟩ [["a"]] .all).1.commits = 3 + 1 ∧
     onyo_rm ⟨[["x"], ["x", "y"]], [["a"]], 3⟩ [["x"], ["x", "y"]] .all
        = onyo_rm ⟨[["x"], ["x", "y"]], [["a"]], 3⟩ [["x"]] .all ∧
     (onyo_rm ⟨[["x"], ["x", "y"]], [["a"]], 3⟩ [["x"]] .all).2 = none ∧
     (onyo_rm ⟨[["x"], ["x", "y"]], [["a"]], 3⟩ [["x"]] .all).1.commits = 3 + 1) :=
  ⟨by decide, by decide, by decide, by decide,
   onyo_rm_idempotent ⟨[["x"], ["x", "y"]], [["a"]], 3⟩ ["a"] ["x"] ["x", "y"]
     (by decide) (by decide) (by decide) (by decide)⟩

/-- C3: for a valid tracked inventory directory D whose parent is tracked,
`remove([D])` succeeds and results in a state where neither D, nor any
asset inside D, nor any descendant of D remains (no remaining directory or
asset path has D as a prefix — directory membership stands for the
directory's anchor, so D's anchor is gone too), exactly one new commit is
created, and D's parent directory (hence the parent's anchor) remains
present. -/
theorem onyo_rm_cascade (s : InvState) (D : InvPath)
    (hvalid : validate_rm s .all D = none)
    (hdir : D ∈ s.dirs)
    (hparent : D.dropLast ∈ s.dirs) :
    (onyo_rm s [D] .all).2 = none ∧
    (∀ q ∈ (onyo_rm s [D] .all).1.dirs, D.isPrefixOf q = false) ∧
    (∀ q ∈ (onyo_rm s [D] .all).1.assets, D.isPrefixOf q = false) ∧
    D ∉ (onyo_rm s [D] .all).1.dirs ∧
    D ∉ (onyo_rm s [D] .all).1.assets ∧
    D.dropLast ∈ (onyo_rm s [D] .all).1.dirs ∧
    (onyo_rm s [D] .all).1.commits = s.commits + 1 := by
  have hne : D ≠ [] := ((validate_rm_all_none_iff s D).mp hvalid).1
  have hfs : [D].findSome? (validate_rm s .all) = none := by
    simp [List.findSome?_cons, hvalid]
  have hrm : onyo_rm s [D] .all = (rmApply s [D] .all, none) := by
    unfold onyo_rm
    rw [hfs]
  rw [hrm]
  simp only [rmApply]
  refine ⟨by simp, ?_, ?_, ?_, ?_, ?_, by simp⟩
  · intro q hq
    rw [List.mem_filter] at hq
    simpa using hq.2
  · intro q hq
    rw [List.mem_filter] at hq
    simpa using hq.2
  · intro hmem
    rw [List.mem_filter] at hmem
    simp [isPrefixOf_refl] at hmem
  · intro hmem
    rw [List.mem_filter] at hmem
    simp [isPrefixOf_refl] at hmem
  · rw [List.mem_filter]
    exact ⟨hparent, by simp [isPrefixOf_dropLast_false hne]⟩

/-- C3 witness: instantiation of `onyo_rm_cascade` at a concrete state —
directory `w/n` containing the asset `w/n/a` and the subdirectory
`w/n/sub`, with parent `w`. -/
theorem onyo_rm_cascade_witness :
    (validate_rm ⟨[["w"], ["w", "n"], ["w", "n", "sub"]], [["w", "n", "a"]], 1⟩
        .all ["w", "n"] = none) ∧
    (["w", "n"] ∈ (⟨[["w"], ["w", "n"], ["w", "n", "sub"]], [["w", "n", "a"]], 1⟩
        : InvState).dirs) ∧
    (["w", "n"].dropLast
        ∈ (⟨[["w"], ["w", "n"], ["w", "n", "sub"]], [["w", "n", "a"]], 1⟩
            : InvState).dirs) ∧
    ((onyo_rm ⟨[["w"], ["w", "n"], ["w", "n", "sub"]], [["w", "n", "a"]], 1⟩
        [["w", "n"]] .all).2 = none ∧
     (∀ q ∈ (onyo_rm ⟨[["w"], ["w", "n"], ["w", "n", "sub"]], [["w", "n", "a"]], 1⟩
        [["w", "n"]] .all).1.dirs, ["w", "n"].isPrefixOf q = false) ∧
     (∀ q ∈ (onyo_rm ⟨[["w"], ["w", "n"], ["w", "n", "sub"]], [["w", "n", "a"]], 1⟩
        [["w", "n"]] .all).1.assets, ["w", "n"].isPrefixOf q = false) ∧
     ["w", "n"] ∉ (onyo_rm ⟨[["w"], ["w", "n"], ["w", "n", "sub"]], [["w", "n", "a"]], 1⟩
        [["w", "n"]] .all).1.dirs ∧
     ["w", "n"] ∉ (onyo_rm ⟨[["w"], ["w", "n"], ["w", "n", "sub"]], [["w", "n", "a"]], 1⟩
        [["w", "n"]] .all).1.assets ∧
     ["w", "n"].dropLast
        ∈ (onyo_rm ⟨[["w"], ["w", "n"], ["w", "n", "sub"]], [["w", "n", "a"]], 1⟩
            [["w", "n"]] .all).1.dirs ∧
     (onyo_rm ⟨[["w"], ["w", "n"], ["w", "n", "sub"]], [["w", "n", "a"]], 1⟩
        [["w", "n"]] .all).1.commits = 1 + 1) :=
  ⟨by decide, by decide, by decide,
   onyo_rm_cascade ⟨[["w"], ["w", "n"], ["w", "n", "sub"]], [["w", "n", "a"]], 1⟩
     ["w", "n"] (by decide) (by decide) (by decide)⟩

/-- C4: for a valid path AD that is both a tracked asset and a tracked
directory (an asset directory): `remove([AD], mode=asset)` leaves AD a
plain inventory directory (still a tracked directory, no longer an asset
path); `remove([AD], mode=dir)` leaves the asset record at the same path
(still an asset path, no longer a tracked directory); `remove([AD],
mode=all)` leaves nothing at AD; and each variant creates exactly one new
commit. -/
theorem onyo_rm_asset_dir_modes (s : InvState) (AD : InvPath)
    (hvalid : validate_rm s .all AD = none)
    (hA : AD ∈ s.assets) (hD : AD ∈ s.dirs) :
    ((onyo_rm s [AD] .asset).2 = none ∧
     AD ∈ (onyo_rm s [AD] .asset).1.dirs ∧
     AD ∉ (onyo_rm s [AD] .asset).1.assets ∧
     (onyo_rm s [AD] .asset).1.commits = s.commits + 1) ∧
    ((onyo_rm s [AD] .dir).2 = none ∧
     AD ∈ (onyo_rm s [AD] .dir).1.assets ∧
     AD ∉ (onyo_rm s [AD] .dir).1.dirs ∧
     (onyo_rm s [AD] .dir).1.commits = s.commits + 1) ∧
    ((onyo_rm s [AD] .all).2 = none ∧
     AD ∉ (onyo_rm s [AD] .all).1.dirs ∧
     AD ∉ (onyo_rm s [AD] .all).1.assets ∧
     (onyo_rm s [AD] .all).1.commits = s.commits + 1) := by
  have hva : validate_rm s .asset AD = none := by
    rw [validate_rm_asset_eq s AD hvalid]
    simp [hA]
  have hvd : validate_rm s .dir AD = none := by
    rw [validate_rm_dir_eq s AD hvalid]
    simp [hD]
  have hrma : onyo_rm s [AD] .asset = (rmApply s [AD] .asset, none) := by
    unfold onyo_rm
    rw [show [AD].findSome? (validate_rm s .asset) = none by
      simp [List.findSome?_cons, hva]]
  have hrmd : onyo_rm s [AD] .dir = (rmApply s [AD] .dir, none) := by
    unfold onyo_rm
    rw [show [AD].findSome? (validate_rm s .dir) = none by
      simp [List.findSome?_cons, hvd]]
  have hrmall : onyo_rm s [AD] .all = (rmApply s [AD] .all, none) := by
    unfold onyo_rm
    rw [show [AD].findSome? (validate_rm s .all) = none by
      simp [List.findSome?_cons, hvalid]]
  refine ⟨?_, ?_, ?_⟩
  · rw [hrma]
    simp only [rmApply]
    refine ⟨by simp, hD, ?_, by simp⟩
    intro hmem
    rw [List.mem_filter] at hmem
    simp at hmem
  · rw [hrmd]
    simp only [rmApply]
    refine ⟨by simp, ?_, ?_, by simp⟩
    · rw [List.mem_filter]
      refine ⟨hA, ?_⟩
      simp [isPrefixOf_refl]
    · intro hmem
      rw [List.mem_filter] at hmem
      simp [isPrefixOf_refl] at hmem
  · rw [hrmall]
    simp only [rmApply]
    refine ⟨by simp, ?_, ?_, by simp⟩
    · intro hmem
      rw [List.mem_filter] at hmem
      simp [isPrefixOf_refl] at hmem
    · intro hmem
      rw [List.mem_filter] at hmem
      simp [isPrefixOf_refl] at hmem

/-- C4 witness: instantiation of `onyo_rm_asset_dir_modes` at a concrete
state in which the path `ad` is simultaneously a tracked asset and a
tracked directory. -/
theorem onyo_rm_asset_dir_modes_witness :
    (validate_rm ⟨[["ad"]], [["ad"]], 2⟩ .all ["ad"] = none) ∧
    (["ad"] ∈ (⟨[["ad"]], [["ad"]], 2⟩ : InvState).assets) ∧
    (["ad"] ∈ (⟨[["ad"]], [["ad"]], 2⟩ : InvState).dirs) ∧
    (((onyo_rm ⟨[["ad"]], [["ad"]], 2⟩ [["ad"]] .asset).2 = none ∧
      ["ad"] ∈ (onyo_rm ⟨[["ad"]], [["ad"]], 2⟩ [["ad"]] .asset).1.dirs ∧
      ["ad"] ∉ (onyo_rm ⟨[["ad"]], [["ad"]], 2⟩ [["ad"]] .asset).1.assets ∧
      (onyo_rm ⟨[["ad"]], [["ad"]], 2⟩ [["ad"]] .asset).1.commits = 2 + 1) ∧
     ((onyo_rm ⟨[["ad"]], [["ad"]], 2⟩ [["ad"]] .dir).2 = none ∧
      ["ad"] ∈ (onyo_rm ⟨[["ad"]], [["ad"]], 2⟩ [["ad"]] .dir).1.assets ∧
      ["ad"] ∉ (onyo_rm ⟨[["ad"]], [["ad"]], 2⟩ [["ad"]] .dir).1.dirs ∧
      (onyo_rm ⟨[["ad"]], [["ad"]], 2⟩ [["ad"]] .dir).1.commits = 2 + 1) ∧
     ((onyo_rm ⟨[["ad"]], [["ad"]], 2⟩ [["ad"]] .all).2 = none ∧
      ["ad"] ∉ (onyo_rm ⟨[["ad"]], [["ad"]], 2⟩ [["ad"]] .all).1.dirs ∧
      ["ad"] ∉ (onyo_rm ⟨[["ad"]], [["ad"]], 2⟩ [["ad"]] .all).1.assets ∧
      (onyo_rm ⟨[["ad"]], [["ad"]], 2⟩ [["ad"]] .all).1.commits = 2 + 1)) :=
  ⟨by decide, by decide, by decide,
   onyo_rm_asset_dir_modes ⟨[["ad"]], [["ad"]], 2⟩ ["ad"]
     (by decide) (by decide) (by decide)⟩

/-- C6: a mode mismatch fails with a usage error (`ValueError`), not a
silent no-op, and the state (working tree and commit counter) is left
unchanged: `mode=asset` on a structurally valid path that is a pure
tracked directory, and `mode=dir` on a structurally valid path that is a
pure asset, both return the input state together with the usage error. -/
theorem onyo_rm_mode_mismatch (s : InvState) (p q : InvPath)
    (hpv : validate_rm s .all p = none) (hpd : p ∈ s.dirs) (hpa : p ∉ s.assets)
    (hqv : validate_rm s .all q = none) (hqa : q ∈ s.assets) (hqd : q ∉ s.dirs) :
    onyo_rm s [p] .asset = (s, some .usage) ∧
    onyo_rm s [q] .dir = (s, some .usage) := by
  have h1 : validate_rm s .asset p = some .usage := by
    rw [validate_rm_asset_eq s p hpv]
    simp [hpa]
  have h2 : validate_rm s .dir q = some .usage := by
    rw [validate_rm_dir_eq s q hqv]
    simp [hqd]
  constructor
  · unfold onyo_rm
    rw [show [p].findSome? (validate_rm s .asset) = some .usage by
      simp [List.findSome?_cons, h1]]
  · unfold onyo_rm
    rw [show [q].findSome? (validate_rm s .dir) = some .usage by
      simp [List.findSome?_cons, h2]]

/-- C6 witness: instantiation of `onyo_rm_mode_mismatch` at a concrete
state with the pure directory `d` and the pure asset `a`. -/
theorem onyo_rm_mode_mismatch_witness :
    (validate_rm ⟨[["d"]], [["a"]], 0⟩ .all ["d"] = none) ∧
    (["d"] ∈ (⟨[["d"]], [["a"]], 0⟩ : InvState).dirs) ∧
    (["d"] ∉ (⟨[["d"]], [["a"]], 0⟩ : InvState).assets) ∧
    (validate_rm ⟨[["d"]], [["a"]], 0⟩ .all ["a"] = none) ∧
    (["a"] ∈ (⟨[["d"]], [["a"]], 0⟩ : InvState).assets) ∧
    (["a"] ∉ (⟨[["d"]], [["a"]], 0⟩ : InvState).dirs) ∧
    (onyo_rm ⟨[["d"]], [["a"]], 0⟩ [["d"]] .asset
        = (⟨[["d"]], [["a"]], 0⟩, some .usage) ∧
     onyo_rm ⟨[["d"]], [["a"]], 0⟩ [["a"]] .dir
        = (⟨[["d"]], [["a"]], 0⟩, some .usage)) :=
  ⟨by decide, by decide, by decide, by decide, by decide, by decide,
   onyo_rm_mode_mismatch ⟨[["d"]], [["a"]], 0⟩ ["d"] ["a"]
     (by decide) (by decide) (by decide) (by decide) (by decide) (by decide)⟩

/-- C7: setting values that already equal the keys' current values in the
targeted asset succeeds (exit status 0, not an error), reports
"No assets updated.", creates zero new commits, and leaves the asset's
content and the whole state unchanged — the result state is the input
state.  (The hypothesis quantifies over every stored entry at path `p`,
and requires the asset's keys to be unique, as Python dictionaries
guarantee.) -/
theorem onyo_set_noop (s : SetState) (p : InvPath)
    (d : List (String × String)) (updates : List (String × String))
    (hmem : (p, d) ∈ s.assets)
    (hagree : ∀ a ∈ s.assets, a.1 = p →
      (a.2.map Prod.fst).Nodup ∧
      ∀ ku vu, (ku, vu) ∈ updates → dictLookup a.2 ku = some vu) :
    onyo_set s [p] updates = (s, "No assets updated.", 0) := by
  have key : ∀ a ∈ s.assets, [p].contains a.1 = true →
      pyDictUnion a.2 updates = a.2 := by
    intro a ha hc
    have hp : a.1 = p := by simpa using hc
    obtain ⟨hnd, hupd⟩ := hagree a ha hp
    exact pyDictUnion_self hnd hupd
  have hempty : ((s.assets.filter (fun a => [p].contains a.1)).filter
      (fun a => pyDictUnion a.2 updates != a.2)) = [] := by
    rw [List.filter_eq_nil_iff]
    intro a ha
    rw [List.mem_filter] at ha
    have := key a ha.1 ha.2
    simp [this]
  unfold onyo_set
  rw [hempty]
  simp

/-- C7 witness: instantiation of `onyo_set_noop` — setting `k=v` on an
asset whose `k` is already `v`. -/
theorem onyo_set_noop_witness :
    ((["a"], [("k", "v"), ("o", "1")])
        ∈ (⟨[(["a"], [("k", "v"), ("o", "1")])], 4⟩ : SetState).assets) ∧
    (∀ a ∈ (⟨[(["a"], [("k", "v"), ("o", "1")])], 4⟩ : SetState).assets,
      a.1 = ["a"] →
      (a.2.map Prod.fst).Nodup ∧
      ∀ ku vu, (ku, vu) ∈ [("k", "v")] → dictLookup a.2 ku = some vu) ∧
    onyo_set ⟨[(["a"], [("k", "v"), ("o", "1")])], 4⟩ [["a"]] [("k", "v")]
      = (⟨[(["a"], [("k", "v"), ("o", "1")])], 4⟩, "No assets updated.", 0) :=
  ⟨by decide,
   by
     intro a ha hp
     rw [List.mem_singleton] at ha
     subst ha
     refine ⟨by decide, ?_⟩
     intro ku vu hm
     rw [List.mem_singleton] at hm
     obtain ⟨rfl, rfl⟩ := Prod.mk.injEq .. ▸ hm
     decide,
   onyo_set_noop ⟨[(["a"], [("k", "v"), ("o", "1")])], 4⟩ ["a"]
     [("k", "v"), ("o", "1")] [("k", "v")] (by decide)
     (by
       intro a ha hp
       rw [List.mem_singleton] at ha
       subst ha
       refine ⟨by decide, ?_⟩
       intro ku vu hm
       rw [List.mem_singleton] at hm
       obtain ⟨rfl, rfl⟩ := Prod.mk.injEq .. ▸ hm
       decide)⟩

end Onyo
